import Mathlib

/-!
Verification of the terrace RAG service core (src/python) against its
natural-language specification.

The Python code is shallowly embedded: floating-point arithmetic is modelled
over `ℚ` (and over `ℝ` where the code takes a square root), Python `dict`
requests become structures with `Option` fields, exceptions become
`Except`/`Option` results, and the external collaborators (embedding backend,
ChromaDB client) become function parameters so that each handler is a pure
function of its request and of its collaborators' responses.
-/

namespace RagSvc

/-! ## Score conversion (rag_service.py, `_handle_search`, lines 313-321)

The code computes `score = 1.0 / (1.0 + distance)` and emits
`round(score, 4)`.  Python's `round` rounds half to even; `roundHalfEven`
models it exactly on rationals. -/

/-- Round a rational to the nearest integer, ties to the even integer
(the semantics of Python's builtin `round`). -/
def roundHalfEven (q : ℚ) : ℤ :=
  let f : ℤ := ⌊q⌋
  let frac : ℚ := q - (f : ℚ)
  if frac < 1/2 then f
  else if 1/2 < frac then f + 1
  else if f % 2 = 0 then f else f + 1

/-- `round(q, 4)` from `_handle_search`: round to 4 decimal places. -/
def round4 (q : ℚ) : ℚ := ((roundHalfEven (q * 10000) : ℤ) : ℚ) / 10000

/-- The raw similarity transform `1.0 / (1.0 + distance)` of `_handle_search`
(line 315), before rounding. -/
def scoreRaw (d : ℚ) : ℚ := 1 / (1 + d)

/-! ## Request and response models (rag_service.py, lines 36-94)

Pydantic request models become structures of `Option` fields (a missing
dict key is `none`); validators that raise become the error branches of the
`validate*` functions below.  Pydantic rejects a missing required field, and
the custom validators reject empty / whitespace-only text
(`if not v or not v.strip()`), modelled by `isBlank`.  Python string
helpers that the code uses (`strip`, `lower`, `split`) are modelled
structurally over the character list so that they evaluate. -/

/-- Python `not v or not v.strip()` (the validators of rag_service.py lines
46 and 71): true exactly when the string is empty or whitespace-only. -/
def isBlank (s : String) : Bool := s.data.all Char.isWhitespace

/-- Python `s.strip()`: drop whitespace from both ends. -/
def pyStrip (s : String) : String :=
  String.mk (((s.data.dropWhile Char.isWhitespace).reverse.dropWhile
    Char.isWhitespace).reverse)

/-- Python `s.lower()`. -/
def pyLower (s : String) : String := String.mk (s.data.map Char.toLower)

/-- Python `s.split(sep)` for a one-character separator: always at least one
chunk, empty chunks kept. -/
def splitChar (sep : Char) : List Char → List (List Char)
  | [] => [[]]
  | c :: rest =>
    let r := splitChar sep rest
    if c = sep then [] :: r
    else
      match r with
      | [] => [[c]]
      | chunk :: more => (c :: chunk) :: more

/-- Python `s.split(sep)` on strings. -/
def pySplit (s : String) (sep : Char) : List String :=
  (splitChar sep s.data).map String.mk

/-- `EmbedRequest`: `fact_id` (required), `statement` (required, non-blank),
`context_id` (optional). -/
structure EmbedReq where
  fact_id : Option String
  statement : Option String
  context_id : Option String
deriving DecidableEq

/-- `EmbedResponse`: `success`, `fact_id`, `message`. -/
structure EmbedResp where
  success : Bool
  fact_id : String
  message : String
deriving DecidableEq

/-- `SearchRequest`: `query` (required, non-blank), `limit` (default 10,
`ge=1, le=100`), `context_ids` (optional). -/
structure SearchReq where
  query : Option String
  limit : Option Int
  context_ids : Option (List String)
deriving DecidableEq

/-- `SearchResult`: one entry of the search response. -/
structure SearchResult where
  fact_id : String
  score : ℚ
  statement : String
deriving DecidableEq

/-- The search handler's output: a result list, plus the error string of the
inline failure shape `{"results": [], "error": str(e)}` when one was hit. -/
structure SearchResp where
  results : List SearchResult
  error : Option String
deriving DecidableEq

/-- `HealthResponse` (plus the `error` key of the unhealthy dict). -/
structure HealthResp where
  status : String
  provider : String
  chromadb : String
  embedding_dimension : Option Int
  error : Option String
deriving DecidableEq

/-- One call against the ChromaDB collection.  The ChromaDB client offers
both `add` and `upsert`; the trace records which one the pipeline used.
A metadata dict `{"context_id": c}` is recorded as the string `c`. -/
inductive StoreOp where
  | add (ids : List String) (embeddings : List (List ℚ)) (documents : List String)
      (metadatas : Option (List String))
  | upsert (ids : List String) (embeddings : List (List ℚ)) (documents : List String)
      (metadatas : Option (List String))
deriving DecidableEq

/-- Which collection method a store call used. -/
def StoreOp.kindName : StoreOp → String
  | .add _ _ _ _ => "add"
  | .upsert _ _ _ _ => "upsert"

/-- Pydantic validation of `EmbedRequest` (missing required field, then the
`statement_not_empty` validator, rag_service.py lines 43-48). -/
def validateEmbed (r : EmbedReq) : Except String (String × String) :=
  match r.fact_id with
  | none => .error "Field required: fact_id"
  | some fid =>
    match r.statement with
    | none => .error "Field required: statement"
    | some s =>
      if isBlank s then .error "Statement cannot be empty"
      else .ok (fid, s)

/-- Metadata preparation of `_handle_embed` (lines 243-246 and 253):
`metadata = {}`, add `context_id` only when truthy, and pass
`[metadata] if metadata else None` to the store.  A `Some ""` context id is
falsy in Python, hence dropped. -/
def metadatasOf (r : EmbedReq) : Option (List String) :=
  match r.context_id with
  | none => none
  | some c => if c = "" then none else some [c]

/-- `_handle_embed` (rag_service.py lines 224-272).  `embedFn` stands for
`self.provider.embed`, `storeAdd` for `self.collection.add`; both may fail
(`Except.error` models a raised exception).  The second component is the
trace of store calls performed.  The whole body is inside `try/except`, so
the handler always returns an inline response, never propagates. -/
def handleEmbed (embedFn : String → Except String (List ℚ))
    (storeAdd : StoreOp → Except String Unit)
    (r : EmbedReq) : EmbedResp × List StoreOp :=
  match validateEmbed r with
  | .error e => (⟨false, r.fact_id.getD "unknown", "Error: " ++ e⟩, [])
  | .ok (fid, s) =>
    match embedFn s with
    | .error e => (⟨false, r.fact_id.getD "unknown", "Error: " ++ e⟩, [])
    | .ok emb =>
      let op := StoreOp.add [fid] [emb] [s] (metadatasOf r)
      match storeAdd op with
      | .error e => (⟨false, r.fact_id.getD "unknown", "Error: " ++ e⟩, [op])
      | .ok _ => (⟨true, fid, "Fact embedded successfully"⟩, [op])

/-- The parallel arrays ChromaDB's `query` returns for the single query
vector (`results["ids"][0]`, `results["distances"][0]`,
`results["documents"][0]`). -/
structure QueryReply where
  ids : List String
  distances : List ℚ
  documents : List String
deriving DecidableEq

/-- Pydantic validation of `SearchRequest`: required non-blank `query`
(lines 68-73), `limit` in `[1,100]` with default 10 (lines 61-62). -/
def validateSearch (r : SearchReq) :
    Except String (String × Int × Option (List String)) :=
  match r.query with
  | none => .error "Field required: query"
  | some q =>
    if isBlank q then .error "Query cannot be empty"
    else
      let lim := r.limit.getD 10
      if lim < 1 ∨ 100 < lim then .error "Input should be in range 1 to 100"
      else .ok (q, lim, r.context_ids)

/-- The `where` filter of `_handle_search` (lines 294-298): built only when
`context_ids` is truthy (present and non-empty); the dict
`{"context_id": {"$in": l}}` is recorded as `l` itself. -/
def whereFilterOf (ctx : Option (List String)) : Option (List String) :=
  match ctx with
  | none => none
  | some l => if l = [] then none else some l

/-- The result-assembly loop of `_handle_search` (lines 308-323): one
`SearchResult` per index of the parallel arrays, in store order, with
`score = round(1/(1+distance), 4)`.  Python indexing `distances[0][i]` /
`documents[0][i]` raises `IndexError` if an array is shorter than `ids`;
`none` models that. -/
def buildResults : List String → List ℚ → List String → Option (List SearchResult)
  | [], _, _ => some []
  | fid :: ids, d :: ds, doc :: docs =>
    (buildResults ids ds docs).map (fun rest => ⟨fid, round4 (scoreRaw d), doc⟩ :: rest)
  | _ :: _, _, _ => none

/-- `_handle_search` (rag_service.py lines 274-335).  `embedFn` stands for
`self.provider.embed`, `storeQuery` for `self.collection.query` (receiving
the query vector, `n_results` and the `where` filter).  Failures anywhere
produce the inline `{"results": [], "error": ...}` shape. -/
def handleSearch (embedFn : String → Except String (List ℚ))
    (storeQuery : List ℚ → Int → Option (List String) → Except String QueryReply)
    (r : SearchReq) : SearchResp :=
  match validateSearch r with
  | .error e => ⟨[], some e⟩
  | .ok (q, lim, ctx) =>
    match embedFn q with
    | .error e => ⟨[], some e⟩
    | .ok qv =>
      match storeQuery qv lim (whereFilterOf ctx) with
      | .error e => ⟨[], some e⟩
      | .ok qr =>
        match buildResults qr.ids qr.distances qr.documents with
        | none => ⟨[], some "list index out of range"⟩
        | some rs => ⟨rs, none⟩

/-- `_handle_health` (rag_service.py lines 337-379).  `heartbeat` stands for
`self.chroma_client.heartbeat()`, `providerInfo` for the pair
`(self.provider.get_provider_name(), self.provider.get_embedding_dimension())`;
an `Except.error` models a raised exception.  The heartbeat is probed inside
its own `try`, the provider reads inside the outer `try` whose handler
returns the `unhealthy` shape. -/
def handleHealth (heartbeat : Except String Unit)
    (providerInfo : Except String (String × Int)) : HealthResp :=
  let chromaStatus : String :=
    match heartbeat with
    | .ok _ => "connected"
    | .error e => "disconnected: " ++ e
  match providerInfo with
  | .error e => ⟨"unhealthy", "unknown", "unknown", none, some e⟩
  | .ok nd =>
    ⟨if chromaStatus = "connected" then "healthy" else "degraded",
      nd.1, chromaStatus, some nd.2, none⟩

/-! ## Concrete collaborators and requests used to exercise the handlers -/

/-- A provider whose `embed` always succeeds with the vector `[1]`. -/
def embedFnOk : String → Except String (List ℚ) := fun _ => .ok [1]

/-- A store whose `add` always succeeds. -/
def storeAddOk : StoreOp → Except String Unit := fun _ => .ok ()

/-- A well-formed embed request. -/
def embedReqDemo : EmbedReq := ⟨some "f1", some "hello", none⟩

/-- An embed request whose statement is whitespace-only. -/
def embedReqBlank : EmbedReq := ⟨some "f9", some "   ", none⟩

/-- A well-formed search request (default limit, no context filter). -/
def searchReqDemo : SearchReq := ⟨some "q", none, none⟩

/-- A store reply with two distinct distances, `1` and `1.00001`, whose
4-decimal rounded scores coincide. -/
def qrTie : QueryReply := ⟨["a", "b"], [1, 100001/100000], ["da", "db"]⟩

/-- A store that answers every query with `qrTie`. -/
def storeQueryTie : List ℚ → Int → Option (List String) → Except String QueryReply :=
  fun _ _ _ => .ok qrTie

/-- A store reply with the single (non-negative) distance `20000`.  Its raw
score `1/20001` lies strictly below the 4-decimal rounding threshold
`0.00005` (no rounding tie is involved, so exact-rational rounding and
float rounding agree that it rounds to 0). -/
def qrFar : QueryReply := ⟨["a"], [20000], ["da"]⟩

/-- A store that answers every query with `qrFar`. -/
def storeQueryFar : List ℚ → Int → Option (List String) → Except String QueryReply :=
  fun _ _ _ => .ok qrFar

/-- A store reply with the single distance `0`. -/
def qrZero : QueryReply := ⟨["a"], [0], ["da"]⟩

/-- A store that answers every query with `qrZero`. -/
def storeQueryZero : List ℚ → Int → Option (List String) → Except String QueryReply :=
  fun _ _ _ => .ok qrZero

/-! ## Claude provider (providers/claude.py)

`_expand_features` (lines 108-134) tiles the parsed feature list up to the
target dimension with a `while` loop, truncates, and L2-normalizes unless the
magnitude is 0.  The `while` loop is modelled fuel-indexed: `none` means the
loop guard still held when the fuel ran out, and a result that is `none` for
every fuel is a genuinely divergent loop.  Arithmetic after the square root
lives in `ℝ`. -/

/-- `n` concatenated copies of a list (the effect of `n` iterations of
`expanded.extend(features)`). -/
def repCat (features : List α) : ℕ → List α
  | 0 => []
  | n + 1 => features ++ repCat features n

/-- The loop `while len(expanded) < target_dim: expanded.extend(features)`
of `_expand_features`, with an iteration budget.  `none` means the budget was
exhausted with the guard still true. -/
def tileWhile (features : List α) (target : ℕ) : ℕ → List α → Option (List α)
  | 0, acc => if acc.length < target then none else some acc
  | fuel + 1, acc =>
    if acc.length < target then tileWhile features target fuel (acc ++ features)
    else some acc

/-- `sum(x**2 for x in l)`. -/
noncomputable def sumSq (l : List ℝ) : ℝ := (l.map (fun x => x ^ 2)).sum

/-- The tail of `_expand_features` (lines 126-134): truncate to the target
dimension, compute `magnitude = (sum of squares) ** 0.5`, and divide each
entry by it when `magnitude > 0`. -/
noncomputable def normalizeStep (target : ℕ) (l : List ℝ) : List ℝ :=
  let expanded := l.take target
  let magnitude := Real.sqrt (sumSq expanded)
  if 0 < magnitude then expanded.map (fun x => x / magnitude) else expanded

/-- `ClaudeProvider._expand_features(features, target_dim)`.  The fuel
`target_dim + 1` is enough for the loop to reach its guard whenever
`features` is non-empty (each iteration appends at least one element), so
`none` arises exactly when the loop diverges. -/
noncomputable def expand_features (features : List ℝ) (target_dim : ℕ) :
    Option (List ℝ) :=
  (tileWhile features target_dim (target_dim + 1) []).map (normalizeStep target_dim)

/-- `ClaudeProvider._dimension`, fixed to 1024 at construction. -/
def claudeDimension : ℕ := 1024

/-- Python `float(token)` restricted to plain decimal literals
(optional sign, digits, optional fractional part), the shape the
structured-extraction prompt requests.  `none` models the `ValueError` a
non-numeric token raises. -/
def parseDigits (cs : List Char) : Option ℕ :=
  if cs.isEmpty then none
  else
    cs.foldl
      (fun acc c =>
        acc.bind (fun n => if c.isDigit then some (10 * n + (c.toNat - 48)) else none))
      (some 0)

/-- `float(x.strip())` on one comma-separated token. -/
def parseFloat (s : String) : Option ℚ :=
  let t := pyStrip s
  let sb : Bool × List Char :=
    match t.data with
    | '-' :: rest => (true, rest)
    | '+' :: rest => (false, rest)
    | cs => (false, cs)
  let mag : Option ℚ :=
    match splitChar '.' sb.2 with
    | [ip] => (parseDigits ip).map (fun n => mkRat n 1)
    | [ip, fp] =>
      match parseDigits ip, parseDigits fp with
      | some a, some b => some (mkRat (a * 10 ^ fp.length + b) (10 ^ fp.length))
      | _, _ => none
    | _ => none
  mag.map (fun q => if sb.1 then -q else q)

/-- The list comprehension
`[float(x.strip()) for x in response_text.split(",")]`: the first failing
token fails the whole parse. -/
def parseAll : List String → Option (List ℚ)
  | [] => some []
  | t :: ts =>
    match parseFloat t, parseAll ts with
    | some q, some qs => some (q :: qs)
    | _, _ => none

/-- Feature parsing of `ClaudeProvider.embed` (claude.py lines 93-95):
strip the response text, split on commas, parse every token as a float.
No check of the number of parsed features is performed anywhere. -/
def claudeParseFeatures (response_text : String) : Option (List ℚ) :=
  parseAll (pySplit (pyStrip response_text) ',')

/-- The response post-processing of `ClaudeProvider.embed` (lines 93-102):
parse the features, then `_expand_features(features, self._dimension)`.
`none` models the raised (and re-raised) exception. -/
noncomputable def claudeEmbedPost (response_text : String) : Option (List ℝ) :=
  match claudeParseFeatures response_text with
  | none => none
  | some features => expand_features (features.map (fun (q : ℚ) => (q : ℝ))) claudeDimension

/-! ## Provider factory (providers/__init__.py, `create_provider`) -/

/-- The provider object `create_provider` returns, reduced to the
configuration each constructor receives.  (`local` is a Lean keyword, so the
local variant is the constructor `localModel`.) -/
inductive Provider where
  | claude (api_key : String)
  | openai (api_key : String) (model : String)
  | ollama (host : String) (model : String)
  | localModel (model : String)
deriving DecidableEq

/-- Python `value or default` for optional strings: `None` and `""` are both
falsy and fall back to the default. -/
def orDefault (o : Option String) (d : String) : String :=
  match o with
  | none => d
  | some s => if s = "" then d else s

/-- Python `host.rstrip("/")` from `OllamaProvider.__init__`. -/
def rstripSlashes (s : String) : String :=
  String.mk (s.data.reverse.dropWhile (fun c => c = '/')).reverse

/-- `create_provider(provider_type, api_key, host, model_name)`
(providers/__init__.py lines 28-83): lowercase and strip the type tag,
check the per-variant required credential (`if not api_key` is Python
truthiness, so an empty key is also missing), substitute defaults for the
ollama host/model and the model names, and reject unknown tags listing the
valid set.  `Except.error` models the raised `ValueError`. -/
def create_provider (provider_type : String)
    (api_key host model_name : Option String) : Except String Provider :=
  let pt := pyStrip (pyLower provider_type)
  if pt = "claude" then
    if api_key.getD "" = "" then
      .error ("API key is required for Claude provider. " ++
        "Set ANTHROPIC_API_KEY in environment or .env file.")
    else .ok (.claude (api_key.getD ""))
  else if pt = "openai" then
    if api_key.getD "" = "" then
      .error ("API key is required for OpenAI provider. " ++
        "Set OPENAI_API_KEY in environment or .env file.")
    else .ok (.openai (api_key.getD "") (orDefault model_name "text-embedding-3-small"))
  else if pt = "ollama" then
    .ok (.ollama (rstripSlashes (orDefault host "http://localhost:11434"))
      (orDefault model_name "nomic-embed-text"))
  else if pt = "local" then
    .ok (.localModel (orDefault model_name "all-MiniLM-L6-v2"))
  else
    .error ("Unknown embedding provider: " ++ pt ++
      ". Valid options: claude, openai, ollama, local")

/-! ## Ollama provider dimension state (providers/ollama.py)

`self._dimension` starts as `None`; `embed` memoizes the length of the first
successful embedding; `get_embedding_dimension` probes with `embed("test")`
when unset and falls back to the hardcoded default 768 when the probe
raises.  The state is threaded explicitly: each step returns its result and
the new `_dimension`. -/

/-- `OllamaProvider.embed` (lines 53-102) after the HTTP layer: `api` is the
outcome of the request (`error` = raised/`RequestException`, `ok` = the
decoded `embedding` list).  An empty/missing embedding raises; a successful
embedding memoizes `_dimension` when it is still `None`. -/
def ollamaEmbedStep (api : Except String (List ℚ)) (dim : Option ℕ) :
    Except String (List ℚ) × Option ℕ :=
  match api with
  | .error e => (.error e, dim)
  | .ok emb =>
    if emb = [] then (.error "No embedding returned from Ollama", dim)
    else
      match dim with
      | none => (.ok emb, some emb.length)
      | some d => (.ok emb, some d)

/-- `OllamaProvider.get_embedding_dimension` (lines 108-122): answer the
memoized dimension if set; otherwise embed `"test"` (outcome `probe`) and
memoize its length, or fall back to the hardcoded default 768 when that
raises. -/
def ollamaGetDimension (probe : Except String (List ℚ)) (dim : Option ℕ) :
    ℕ × Option ℕ :=
  match dim with
  | some d => (d, some d)
  | none =>
    match ollamaEmbedStep probe none with
    | (.ok emb, _) => (emb.length, some emb.length)
    | (.error _, _) => (768, some 768)

/-! ## Theorems: rounding and the raw score transform -/

theorem le_roundHalfEven (q : ℚ) : ⌊q⌋ ≤ roundHalfEven q := by
  simp only [roundHalfEven]
  split_ifs <;> omega

theorem roundHalfEven_le (q : ℚ) : roundHalfEven q ≤ ⌊q⌋ + 1 := by
  simp only [roundHalfEven]
  split_ifs <;> omega

theorem roundHalfEven_mono {q1 q2 : ℚ} (h : q1 ≤ q2) :
    roundHalfEven q1 ≤ roundHalfEven q2 := by
  rcases lt_or_eq_of_le (Int.floor_le_floor h) with hf | hf
  · calc roundHalfEven q1 ≤ ⌊q1⌋ + 1 := roundHalfEven_le q1
    _ ≤ ⌊q2⌋ := by omega
    _ ≤ roundHalfEven q2 := le_roundHalfEven q2
  · simp only [roundHalfEven]
    rw [hf]
    have hfr : q1 - (⌊q2⌋ : ℚ) ≤ q2 - (⌊q2⌋ : ℚ) := by linarith
    split_ifs <;> first | omega | linarith

theorem roundHalfEven_zero : roundHalfEven 0 = 0 := by
  unfold roundHalfEven
  norm_num

theorem roundHalfEven_tenThousand : roundHalfEven 10000 = 10000 := by
  unfold roundHalfEven
  norm_num

theorem round4_nonneg {q : ℚ} (h : 0 ≤ q) : 0 ≤ round4 q := by
  unfold round4
  have h1 : roundHalfEven 0 ≤ roundHalfEven (q * 10000) :=
    roundHalfEven_mono (by nlinarith)
  rw [roundHalfEven_zero] at h1
  positivity

theorem round4_le_one {q : ℚ} (h : q ≤ 1) : round4 q ≤ 1 := by
  unfold round4
  have h1 : roundHalfEven (q * 10000) ≤ roundHalfEven 10000 :=
    roundHalfEven_mono (by nlinarith)
  rw [roundHalfEven_tenThousand] at h1
  rw [div_le_one (by norm_num)]
  exact_mod_cast h1

theorem round4_pos {q : ℚ} (h : 1/20000 < q) : 0 < round4 q := by
  unfold round4
  have hq : 1/2 < q * 10000 := by nlinarith
  have hq0 : (0:ℚ) ≤ q * 10000 := by nlinarith
  have hfl : 0 ≤ ⌊q * 10000⌋ := Int.floor_nonneg.mpr hq0
  have hone : 1 ≤ roundHalfEven (q * 10000) := by
    rcases lt_or_eq_of_le hfl with hpos | hzero
    · calc (1:ℤ) ≤ ⌊q * 10000⌋ := by omega
      _ ≤ roundHalfEven (q * 10000) := le_roundHalfEven _
    · simp only [roundHalfEven]
      have hfr : ¬ (q * 10000 - ((⌊q * 10000⌋ : ℤ) : ℚ) < 1/2) := by
        rw [← hzero]
        push_neg
        simpa using le_of_lt hq
      have hfr2 : 1/2 < q * 10000 - ((⌊q * 10000⌋ : ℤ) : ℚ) := by
        rw [← hzero]
        simpa using hq
      split_ifs
      omega
  have : (1:ℚ) ≤ ((roundHalfEven (q * 10000) : ℤ) : ℚ) := by exact_mod_cast hone
  positivity

theorem roundHalfEven_eq_zero {q : ℚ} (h0 : 0 ≤ q) (hh : q < 1/2) :
    roundHalfEven q = 0 := by
  have hf : ⌊q⌋ = 0 := Int.floor_eq_zero_iff.mpr ⟨h0, by linarith⟩
  simp only [roundHalfEven, hf]
  have hfr : q - ((0:ℤ) : ℚ) < 1/2 := by push_cast; linarith
  rw [if_pos hfr]

theorem round4_eq_zero {q : ℚ} (h0 : 0 ≤ q) (hh : q < 1/20000) : round4 q = 0 := by
  unfold round4
  rw [roundHalfEven_eq_zero (by nlinarith) (by nlinarith)]
  norm_num

theorem round4_mono {q1 q2 : ℚ} (h : q1 ≤ q2) : round4 q1 ≤ round4 q2 := by
  unfold round4
  have h1 : roundHalfEven (q1 * 10000) ≤ roundHalfEven (q2 * 10000) :=
    roundHalfEven_mono (by nlinarith)
  have h2 : ((roundHalfEven (q1 * 10000) : ℤ) : ℚ) ≤
      ((roundHalfEven (q2 * 10000) : ℤ) : ℚ) := by exact_mod_cast h1
  linarith

theorem scoreRaw_pos {d : ℚ} (h : 0 ≤ d) : 0 < scoreRaw d := by
  unfold scoreRaw
  positivity

theorem scoreRaw_le_one {d : ℚ} (h : 0 ≤ d) : scoreRaw d ≤ 1 := by
  unfold scoreRaw
  rw [div_le_one (by linarith)]
  linarith

theorem scoreRaw_strictAnti {d1 d2 : ℚ} (h0 : 0 ≤ d1) (h : d1 < d2) :
    scoreRaw d2 < scoreRaw d1 := by
  unfold scoreRaw
  have h1 : (0:ℚ) < 1 + d1 := by linarith
  have h2 : (0:ℚ) < 1 + d2 := by linarith
  rw [div_lt_div_iff₀ h2 h1]
  nlinarith

theorem scoreRaw_zero : scoreRaw 0 = 1 := by
  unfold scoreRaw
  norm_num

theorem round4_scoreRaw_zero : round4 (scoreRaw 0) = 1 := by
  rw [scoreRaw_zero]
  unfold round4 roundHalfEven
  norm_num

/-! ## Lemmas about the result-assembly loop -/

theorem buildResults_eq (ids : List String) :
    ∀ (ds : List ℚ) (docs : List String),
      ds.length = ids.length → docs.length = ids.length →
      buildResults ids ds docs =
        some ((ids.zip (ds.zip docs)).map
          (fun p => ⟨p.1, round4 (scoreRaw p.2.1), p.2.2⟩)) := by
  induction ids with
  | nil =>
    intro ds docs _ _
    simp [buildResults]
  | cons fid ids ih =>
    intro ds docs h1 h2
    cases ds with
    | nil => simp at h1
    | cons d ds =>
      cases docs with
      | nil => simp at h2
      | cons doc docs =>
        simp [buildResults, ih ds docs (by simpa using h1) (by simpa using h2)]

theorem score_mem_buildResults (ids : List String) :
    ∀ (ds : List ℚ) (docs : List String) (rs : List SearchResult)
      (res : SearchResult),
      buildResults ids ds docs = some rs → res ∈ rs →
      ∃ d ∈ ds, res.score = round4 (scoreRaw d) := by
  induction ids with
  | nil =>
    intro ds docs rs res h hm
    simp only [buildResults, Option.some.injEq] at h
    subst h
    simp at hm
  | cons fid ids ih =>
    intro ds docs rs res h hm
    cases ds with
    | nil => simp [buildResults] at h
    | cons d ds =>
      cases docs with
      | nil => simp [buildResults] at h
      | cons doc docs =>
        cases hbr : buildResults ids ds docs with
        | none => simp [buildResults, hbr] at h
        | some rest =>
          simp only [buildResults, hbr, Option.map_some', Option.some.injEq] at h
          subst h
          rcases List.mem_cons.mp hm with hhead | htail
          · exact ⟨d, List.mem_cons_self d ds, by rw [hhead]⟩
          · obtain ⟨d2, hd2, hsc⟩ := ih ds docs rest res hbr htail
            exact ⟨d2, List.mem_cons_of_mem d hd2, hsc⟩

theorem score_mem_handleSearch
    (embedFn : String → Except String (List ℚ))
    (storeQuery : List ℚ → Int → Option (List String) → Except String QueryReply)
    (r : SearchReq) (res : SearchResult)
    (hres : res ∈ (handleSearch embedFn storeQuery r).results) :
    ∃ qv lim w qr, storeQuery qv lim w = .ok qr ∧
      ∃ d ∈ qr.distances, res.score = round4 (scoreRaw d) := by
  unfold handleSearch at hres
  cases hv : validateSearch r with
  | error e => rw [hv] at hres; simp at hres
  | ok t =>
    obtain ⟨q, lim, ctx⟩ := t
    rw [hv] at hres
    dsimp only at hres
    cases he : embedFn q with
    | error e => rw [he] at hres; simp at hres
    | ok qv =>
      rw [he] at hres
      dsimp only at hres
      cases hs : storeQuery qv lim (whereFilterOf ctx) with
      | error e => rw [hs] at hres; simp at hres
      | ok qr =>
        rw [hs] at hres
        dsimp only at hres
        cases hbr : buildResults qr.ids qr.distances qr.documents with
        | none => rw [hbr] at hres; simp at hres
        | some rs =>
          rw [hbr] at hres
          dsimp only at hres
          exact ⟨qv, lim, whereFilterOf ctx, qr, hs,
            score_mem_buildResults qr.ids qr.distances qr.documents rs res hbr hres⟩

/-- A helper for C5: the store-failure status string can never read
`"connected"`. -/
theorem disconnected_ne_connected (m : String) :
    ("disconnected: " ++ m) ≠ "connected" := by
  intro h
  have h2 := congrArg String.length h
  rw [String.length_append] at h2
  have hl1 : ("disconnected: ").length = 14 := by decide
  have hl2 : ("connected").length = 9 := by decide
  omega

/-- C1 (amended) — For every search request that validates, embeds and
queries successfully, and for parallel store arrays of equal length, the
pipeline returns one `SearchResult` per parallel-array index, in exactly the
store's order, with `score = round4 (1/(1+distance))`; the unrounded
transform maps distance 0 to 1.0 and is strictly decreasing in distance; the
emitted (rounded) transform is weakly decreasing — distinct distances may
round to equal scores, so strict monotonicity holds only before rounding. -/
theorem search_pipeline_score_and_order :
    (∀ (embedFn : String → Except String (List ℚ))
       (storeQuery : List ℚ → Int → Option (List String) → Except String QueryReply)
       (r : SearchReq) (q : String) (lim : Int) (ctx : Option (List String))
       (qv : List ℚ) (qr : QueryReply),
        validateSearch r = .ok (q, lim, ctx) →
        embedFn q = .ok qv →
        storeQuery qv lim (whereFilterOf ctx) = .ok qr →
        qr.distances.length = qr.ids.length →
        qr.documents.length = qr.ids.length →
        handleSearch embedFn storeQuery r =
          ⟨(qr.ids.zip (qr.distances.zip qr.documents)).map
              (fun p => ⟨p.1, round4 (scoreRaw p.2.1), p.2.2⟩), none⟩)
    ∧ round4 (scoreRaw 0) = 1
    ∧ (∀ d1 d2 : ℚ, 0 ≤ d1 → d1 < d2 → scoreRaw d2 < scoreRaw d1)
    ∧ (∀ d1 d2 : ℚ, 0 ≤ d1 → d1 ≤ d2 → round4 (scoreRaw d2) ≤ round4 (scoreRaw d1)) := by
  refine ⟨?_, round4_scoreRaw_zero, ?_, ?_⟩
  · intro embedFn storeQuery r q lim ctx qv qr hv he hs h1 h2
    unfold handleSearch
    rw [hv]
    dsimp only
    rw [he]
    dsimp only
    rw [hs]
    dsimp only
    rw [buildResults_eq qr.ids qr.distances qr.documents h1 h2]
  · intro d1 d2 h0 h
    exact scoreRaw_strictAnti h0 h
  · intro d1 d2 h0 h
    rcases lt_or_eq_of_le h with hlt | heq
    · exact round4_mono (le_of_lt (scoreRaw_strictAnti h0 hlt))
    · rw [heq]

/-- Witness for `search_pipeline_score_and_order` at a concrete run. -/
theorem search_pipeline_score_and_order_witness :
    handleSearch embedFnOk storeQueryZero searchReqDemo =
      ⟨(qrZero.ids.zip (qrZero.distances.zip qrZero.documents)).map
          (fun p => ⟨p.1, round4 (scoreRaw p.2.1), p.2.2⟩), none⟩
    ∧ scoreRaw 1 < scoreRaw 0
    ∧ round4 (scoreRaw 1) ≤ round4 (scoreRaw 0) :=
  ⟨search_pipeline_score_and_order.1 embedFnOk storeQueryZero searchReqDemo
      "q" 10 none [1] qrZero rfl rfl rfl rfl rfl,
   search_pipeline_score_and_order.2.2.1 0 1 (le_refl 0) zero_lt_one,
   search_pipeline_score_and_order.2.2.2 0 1 (le_refl 0) zero_le_one⟩

/-- C1 counterexample — the emitted (rounded) score is NOT strictly
monotonically decreasing in distance: a store reply with the two distinct
distances 1 and 1.00001 yields two results with the identical score 0.5, so
the claim read of the emitted transform fails. -/
theorem search_rounded_score_tie :
    (handleSearch embedFnOk storeQueryTie searchReqDemo).results.map
        SearchResult.score = [1/2, 1/2]
    ∧ (1:ℚ) < 100001/100000 := by
  constructor
  · have hrun : handleSearch embedFnOk storeQueryTie searchReqDemo =
        ⟨[⟨"a", round4 (scoreRaw 1), "da"⟩,
          ⟨"b", round4 (scoreRaw (100001/100000)), "db"⟩], none⟩ := rfl
    rw [hrun]
    simp only [List.map_cons, List.map_nil]
    have e1 : round4 (scoreRaw 1) = 1/2 := by
      unfold round4 scoreRaw roundHalfEven
      norm_num
    have e2 : round4 (scoreRaw (100001/100000)) = 1/2 := by
      unfold round4 scoreRaw roundHalfEven
      norm_num
    rw [e1, e2]
  · norm_num

/-- C2 (amended) — the unrounded score lies in (0, 1] for every non-negative
distance; the emitted (rounded) score lies in the closed interval [0, 1]: it
is strictly positive for distances up to 19998 and exactly 0 for distances
of 20000 and beyond (the crossover sits where the raw score falls to the
rounding threshold 0.00005; its exact location depends on the float
representation and is not asserted here); every result the pipeline emits
against a store reporting non-negative distances has its score in [0, 1]. -/
theorem search_score_bounds :
    (∀ d : ℚ, 0 ≤ d → 0 < scoreRaw d ∧ scoreRaw d ≤ 1)
    ∧ (∀ d : ℚ, 0 ≤ d → 0 ≤ round4 (scoreRaw d) ∧ round4 (scoreRaw d) ≤ 1)
    ∧ (∀ d : ℚ, 0 ≤ d → d ≤ 19998 → 0 < round4 (scoreRaw d))
    ∧ (∀ d : ℚ, 20000 ≤ d → round4 (scoreRaw d) = 0)
    ∧ (∀ (embedFn : String → Except String (List ℚ))
         (storeQuery : List ℚ → Int → Option (List String) → Except String QueryReply)
         (r : SearchReq) (res : SearchResult),
        (∀ qv lim w qr, storeQuery qv lim w = .ok qr → ∀ d ∈ qr.distances, 0 ≤ d) →
        res ∈ (handleSearch embedFn storeQuery r).results →
        0 ≤ res.score ∧ res.score ≤ 1) := by
  have hb2 : ∀ d : ℚ, 0 ≤ d → 0 ≤ round4 (scoreRaw d) ∧ round4 (scoreRaw d) ≤ 1 := by
    intro d hd
    exact ⟨round4_nonneg (le_of_lt (scoreRaw_pos hd)), round4_le_one (scoreRaw_le_one hd)⟩
  refine ⟨fun d hd => ⟨scoreRaw_pos hd, scoreRaw_le_one hd⟩, hb2, ?_, ?_, ?_⟩
  · intro d hd hfar
    apply round4_pos
    unfold scoreRaw
    rw [div_lt_div_iff₀ (by norm_num) (by linarith)]
    linarith
  · intro d hd
    have hd0 : (0:ℚ) ≤ d := by linarith
    apply round4_eq_zero (le_of_lt (scoreRaw_pos hd0))
    unfold scoreRaw
    rw [div_lt_div_iff₀ (by linarith) (by norm_num)]
    linarith
  · intro embedFn storeQuery r res hnn hres
    obtain ⟨qv, lim, w, qr, hs, d, hd, hsc⟩ :=
      score_mem_handleSearch embedFn storeQuery r res hres
    rw [hsc]
    exact hb2 d (hnn qv lim w qr hs d hd)

/-- Witness for `search_score_bounds` at distances 0 and 20000 and a
concrete run. -/
theorem search_score_bounds_witness :
    (0 < scoreRaw 0 ∧ scoreRaw 0 ≤ 1)
    ∧ (0 ≤ round4 (scoreRaw 0) ∧ round4 (scoreRaw 0) ≤ 1)
    ∧ 0 < round4 (scoreRaw 0)
    ∧ round4 (scoreRaw 20000) = 0
    ∧ (0 ≤ (⟨"a", round4 (scoreRaw 0), "da"⟩ : SearchResult).score
        ∧ (⟨"a", round4 (scoreRaw 0), "da"⟩ : SearchResult).score ≤ 1) :=
  ⟨search_score_bounds.1 0 (le_refl 0),
   search_score_bounds.2.1 0 (le_refl 0),
   search_score_bounds.2.2.1 0 (le_refl 0) (by decide),
   search_score_bounds.2.2.2.1 20000 (le_refl 20000),
   search_score_bounds.2.2.2.2 embedFnOk storeQueryZero searchReqDemo
     ⟨"a", round4 (scoreRaw 0), "da"⟩
     (by
       intro qv lim w qr hq d hd
       cases hq
       simp only [qrZero] at hd
       rcases List.mem_singleton.mp hd with rfl
       exact le_refl 0)
     (by
       have hrun : handleSearch embedFnOk storeQueryZero searchReqDemo =
           ⟨[⟨"a", round4 (scoreRaw 0), "da"⟩], none⟩ := rfl
       rw [hrun]
       exact List.mem_singleton.mpr rfl)⟩

/-- C2 counterexample — at the non-negative distance 20000 the raw score
`1/20001` lies strictly below the 4-decimal rounding threshold `1/20000`
(no rounding tie, so float rounding agrees), and the emitted score is
exactly 0 — outside the claimed half-open interval (0, 1]. -/
theorem search_score_zero_far :
    (0:ℚ) ≤ 20000
    ∧ scoreRaw 20000 < 1/20000
    ∧ (handleSearch embedFnOk storeQueryFar searchReqDemo).results.map
        SearchResult.score = [0]
    ∧ ¬ (0 < (0:ℚ)) := by
  refine ⟨by norm_num, ?_, ?_, by norm_num⟩
  · unfold scoreRaw
    norm_num
  · have hrun : handleSearch embedFnOk storeQueryFar searchReqDemo =
        ⟨[⟨"a", round4 (scoreRaw 20000), "da"⟩], none⟩ := rfl
    rw [hrun]
    simp only [List.map_cons, List.map_nil]
    have e1 : round4 (scoreRaw 20000) = 0 := by
      unfold round4 scoreRaw roundHalfEven
      norm_num
    rw [e1]

/-- C3 (confirmed) — an embed request whose statement is empty or
whitespace-only is answered inline with `success = false`, an explanatory
message, and the given `fact_id` (or `"unknown"` when absent); the store
trace is empty (no store call), and the handler returns normally (the model
is a total function), never escalating to a transport-level failure. -/
theorem embed_blank_statement_inline
    (embedFn : String → Except String (List ℚ))
    (storeAdd : StoreOp → Except String Unit)
    (r : EmbedReq) (s : String)
    (hs : r.statement = some s) (hblank : isBlank s = true) :
    ∃ e, handleEmbed embedFn storeAdd r =
      (⟨false, r.fact_id.getD "unknown", "Error: " ++ e⟩, []) := by
  cases hf : r.fact_id with
  | none =>
    exact ⟨"Field required: fact_id", by simp [handleEmbed, validateEmbed, hf]⟩
  | some fid =>
    exact ⟨"Statement cannot be empty",
      by simp [handleEmbed, validateEmbed, hf, hs, hblank]⟩

/-- Witness for `embed_blank_statement_inline` on a whitespace statement. -/
theorem embed_blank_statement_inline_witness :
    ∃ e, handleEmbed embedFnOk storeAddOk embedReqBlank =
      (⟨false, "f9", "Error: " ++ e⟩, []) :=
  embed_blank_statement_inline embedFnOk storeAddOk embedReqBlank "   "
    rfl (by decide)

/-- C4 counterexample — on a successful embed of a well-formed request, the
single store call the pipeline performs is the collection's `add` method,
not its `upsert` method (ChromaDB's API has both, with different
duplicate-id semantics), refuting the claim that the pipeline invokes
upsert-by-id. -/
theorem embed_calls_add_not_upsert :
    (handleEmbed embedFnOk storeAddOk embedReqDemo).2.map StoreOp.kindName = ["add"]
    ∧ "add" ≠ "upsert" :=
  ⟨rfl, by decide⟩

/-- C4 (amended) — the embed operation persists a fact through exactly one
`collection.add` call carrying the fact id, embedding, statement and
metadata; re-submitting the same request deterministically issues the
identical `add` call, so whether the second submission overwrites, is
ignored, or fails is decided by the store's duplicate-id semantics for
`add`, not guaranteed by this core. -/
theorem embed_persists_via_add
    (embedFn : String → Except String (List ℚ))
    (storeAdd : StoreOp → Except String Unit)
    (r : EmbedReq) (fid s : String) (emb : List ℚ)
    (hv : validateEmbed r = .ok (fid, s))
    (he : embedFn s = .ok emb)
    (hst : storeAdd (StoreOp.add [fid] [emb] [s] (metadatasOf r)) = .ok ()) :
    handleEmbed embedFn storeAdd r =
      (⟨true, fid, "Fact embedded successfully"⟩,
       [StoreOp.add [fid] [emb] [s] (metadatasOf r)]) := by
  unfold handleEmbed
  rw [hv]
  dsimp only
  rw [he]
  dsimp only
  rw [hst]

/-- Witness for `embed_persists_via_add` at a concrete successful embed. -/
theorem embed_persists_via_add_witness :
    handleEmbed embedFnOk storeAddOk embedReqDemo =
      (⟨true, "f1", "Fact embedded successfully"⟩,
       [StoreOp.add ["f1"] [[1]] ["hello"] none]) :=
  embed_persists_via_add embedFnOk storeAddOk embedReqDemo "f1" "hello" [1]
    rfl rfl rfl

/-- C5 (confirmed) — when the store liveness probe raises and the provider
info is gathered successfully, the store status is `"disconnected: <msg>"`
and the overall status is `"degraded"`; overall status is `"healthy"` iff
the store status field is exactly `"connected"`; status is `"unhealthy"`
iff gathering provider info failed, and that path reports
`provider = "unknown"`. -/
theorem health_status_aggregation :
    (∀ (m name : String) (dim : Int),
        handleHealth (.error m) (.ok (name, dim)) =
          ⟨"degraded", name, "disconnected: " ++ m, some dim, none⟩)
    ∧ (∀ (hb : Except String Unit) (pi : Except String (String × Int)),
        (handleHealth hb pi).status = "healthy" ↔
        (handleHealth hb pi).chromadb = "connected")
    ∧ (∀ (hb : Except String Unit) (pi : Except String (String × Int)),
        (handleHealth hb pi).status = "unhealthy" ↔ ∃ e, pi = .error e)
    ∧ (∀ (hb : Except String Unit) (e : String),
        handleHealth hb (.error e) =
          ⟨"unhealthy", "unknown", "unknown", none, some e⟩) := by
  refine ⟨?_, ?_, ?_, ?_⟩
  · intro m name dim
    simp [handleHealth, disconnected_ne_connected m]
  · intro hb pi
    cases pi with
    | error e =>
      cases hb <;> simp [handleHealth]
    | ok nd =>
      cases hb with
      | error m =>
        simp [handleHealth, disconnected_ne_connected m]
      | ok u => simp [handleHealth]
  · intro hb pi
    cases pi with
    | error e => cases hb <;> simp [handleHealth]
    | ok nd =>
      cases hb with
      | error m => simp [handleHealth, disconnected_ne_connected m]
      | ok u => simp [handleHealth]
  · intro hb e
    cases hb <;> rfl

/-! ## Lemmas about the tiling loop and normalization -/

theorem tileWhile_nil_none {α : Type} (target : ℕ) :
    ∀ (fuel : ℕ) (acc : List α), acc.length < target →
      tileWhile ([] : List α) target fuel acc = none := by
  intro fuel
  induction fuel with
  | zero =>
    intro acc h
    simp [tileWhile, h]
  | succ fuel ih =>
    intro acc h
    simp only [tileWhile, if_pos h, List.append_nil]
    exact ih acc h

theorem tileWhile_some_length {α : Type} (features : List α) (target : ℕ) :
    ∀ (fuel : ℕ) (acc l : List α),
      tileWhile features target fuel acc = some l → target ≤ l.length := by
  intro fuel
  induction fuel with
  | zero =>
    intro acc l h
    simp only [tileWhile] at h
    split_ifs at h with hg
    rw [Option.some.injEq] at h
    rw [← h]
    omega
  | succ fuel ih =>
    intro acc l h
    simp only [tileWhile] at h
    split_ifs at h with hg
    · exact ih (acc ++ features) l h
    · rw [Option.some.injEq] at h
      rw [← h]
      omega

theorem tileWhile_shape {α : Type} (features : List α) (target : ℕ) :
    ∀ (fuel : ℕ) (acc l : List α),
      tileWhile features target fuel acc = some l →
      ∃ n, l = acc ++ repCat features n := by
  intro fuel
  induction fuel with
  | zero =>
    intro acc l h
    simp only [tileWhile] at h
    split_ifs at h with hg
    rw [Option.some.injEq] at h
    exact ⟨0, by rw [← h]; simp [repCat]⟩
  | succ fuel ih =>
    intro acc l h
    simp only [tileWhile] at h
    split_ifs at h with hg
    · obtain ⟨n, hn⟩ := ih (acc ++ features) l h
      exact ⟨n + 1, by simp [repCat, hn, List.append_assoc]⟩
    · rw [Option.some.injEq] at h
      exact ⟨0, by rw [← h]; simp [repCat]⟩

theorem tileWhile_isSome {α : Type} (features : List α) (target : ℕ)
    (hne : features ≠ []) :
    ∀ (fuel : ℕ) (acc : List α), target ≤ acc.length + fuel →
      ∃ l, tileWhile features target fuel acc = some l := by
  have hpos : 0 < features.length := List.length_pos.mpr hne
  intro fuel
  induction fuel with
  | zero =>
    intro acc h
    refine ⟨acc, ?_⟩
    simp only [tileWhile]
    rw [if_neg (by omega)]
  | succ fuel ih =>
    intro acc h
    by_cases hg : acc.length < target
    · obtain ⟨l, hl⟩ := ih (acc ++ features) (by simp [List.length_append]; omega)
      exact ⟨l, by simp only [tileWhile, if_pos hg]; exact hl⟩
    · exact ⟨acc, by simp only [tileWhile, if_neg hg]⟩

/-- A terminating run of `_expand_features`' loop from the empty accumulator
produces some number of concatenated copies of the feature list, of length
at least the target. -/
theorem tileWhile_run {α : Type} (features : List α) (target : ℕ)
    (hne : features ≠ []) :
    ∃ n, tileWhile features target (target + 1) [] = some (repCat features n)
      ∧ target ≤ (repCat features n).length := by
  obtain ⟨l, hl⟩ := tileWhile_isSome features target hne (target + 1) [] (by simp)
  obtain ⟨n, hn⟩ := tileWhile_shape features target (target + 1) [] l hl
  refine ⟨n, ?_, ?_⟩
  · rw [hl, hn]
    simp
  · have := tileWhile_some_length features target (target + 1) [] l hl
    rw [hn] at this
    simpa using this

theorem mem_repCat {α : Type} {features : List α} {x : α} :
    ∀ {n : ℕ}, x ∈ repCat features n → x ∈ features := by
  intro n
  induction n with
  | zero => intro h; simp [repCat] at h
  | succ n ih =>
    intro h
    rcases List.mem_append.mp h with h1 | h2
    · exact h1
    · exact ih h2

theorem sumSq_nonneg (l : List ℝ) : 0 ≤ sumSq l := by
  induction l with
  | nil => simp [sumSq]
  | cons x xs ih =>
    simp only [sumSq, List.map_cons, List.sum_cons]
    have := sq_nonneg x
    simp only [sumSq] at ih
    nlinarith

theorem sumSq_pos_of_mem {l : List ℝ} {x : ℝ} (hx : x ∈ l) (hne : x ≠ 0) :
    0 < sumSq l := by
  induction l with
  | nil => simp at hx
  | cons y ys ih =>
    simp only [sumSq, List.map_cons, List.sum_cons]
    rcases List.mem_cons.mp hx with rfl | hmem
    · have h1 : 0 < x ^ 2 := by positivity
      have h2 := sumSq_nonneg ys
      simp only [sumSq] at h2
      nlinarith
    · have h1 := ih hmem
      simp only [sumSq] at h1
      have h2 := sq_nonneg y
      nlinarith

theorem sumSq_zero_of_forall {l : List ℝ} (h : ∀ x ∈ l, x = 0) :
    sumSq l = 0 := by
  induction l with
  | nil => simp [sumSq]
  | cons y ys ih =>
    simp only [sumSq, List.map_cons, List.sum_cons]
    rw [h y (List.mem_cons_self y ys)]
    have := ih (fun x hx => h x (List.mem_cons_of_mem y hx))
    simp only [sumSq] at this
    rw [this]
    norm_num

theorem sumSq_map_div (l : List ℝ) (m : ℝ) :
    sumSq (l.map (fun x => x / m)) = sumSq l / m ^ 2 := by
  induction l with
  | nil => simp [sumSq]
  | cons y ys ih =>
    simp only [sumSq, List.map_cons, List.sum_cons] at ih ⊢
    rw [ih, div_pow, div_add_div_same]

theorem length_normalizeStep {target : ℕ} {l : List ℝ} (h : target ≤ l.length) :
    (normalizeStep target l).length = target := by
  simp only [normalizeStep]
  split_ifs <;> simp [List.length_take, Nat.min_eq_left h]

theorem sumSq_normalizeStep_of_ne_zero {target : ℕ} {l : List ℝ}
    (h : sumSq (l.take target) ≠ 0) : sumSq (normalizeStep target l) = 1 := by
  have hpos : 0 < sumSq (l.take target) :=
    lt_of_le_of_ne (sumSq_nonneg _) (Ne.symm h)
  have hmag : 0 < Real.sqrt (sumSq (l.take target)) := Real.sqrt_pos.mpr hpos
  simp only [normalizeStep, if_pos hmag]
  rw [sumSq_map_div, Real.sq_sqrt (le_of_lt hpos)]
  exact div_self h

theorem normalizeStep_of_zero {target : ℕ} {l : List ℝ}
    (h : sumSq (l.take target) = 0) : normalizeStep target l = l.take target := by
  simp only [normalizeStep, h, Real.sqrt_zero]
  rw [if_neg (by norm_num)]

/-- Core fact for the Claude expansion: on a non-empty feature list,
`_expand_features` returns the normalization of some tiling of the features,
of length at least the target. -/
theorem expand_features_run (features : List ℝ) (target : ℕ)
    (hne : features ≠ []) :
    ∃ n, target ≤ (repCat features n).length ∧
      expand_features features target =
        some (normalizeStep target (repCat features n)) := by
  obtain ⟨n, hrun, hlen⟩ := tileWhile_run features target hne
  exact ⟨n, hlen, by simp only [expand_features, hrun, Option.map_some']⟩

theorem mem_take_repCat {α : Type} {features : List α} {x : α} (hx : x ∈ features)
    {target n : ℕ} (hlen : features.length ≤ target)
    (hn : target ≤ (repCat features n).length) (hpos : 0 < target) :
    x ∈ (repCat features n).take target := by
  cases n with
  | zero =>
    simp [repCat] at hn
    omega
  | succ n =>
    simp only [repCat]
    rw [List.take_append_eq_append_take, List.take_of_length_le hlen]
    exact List.mem_append_left _ hx

/-- C6 (amended) — feature expansion tiles the features to length exactly
1024 and L2-normalizes; the result has unit norm (sum of squares 1) for
every non-empty feature list that contains a non-zero entry (and fits in
the target, as the 10 prompt features do); an all-zero feature list is the
exception: its magnitude is 0, normalization is skipped, and the norm is 0. -/
theorem expand_features_unit_norm (features : List ℝ) (x : ℝ)
    (hx : x ∈ features) (hxne : x ≠ 0) (hlen : features.length ≤ 1024) :
    ∃ v, expand_features features 1024 = some v ∧ v.length = 1024 ∧ sumSq v = 1 := by
  have hne : features ≠ [] := by
    intro hcon
    rw [hcon] at hx
    simp at hx
  obtain ⟨n, hlen2, heq⟩ := expand_features_run features 1024 hne
  refine ⟨normalizeStep 1024 (repCat features n), heq, length_normalizeStep hlen2, ?_⟩
  apply sumSq_normalizeStep_of_ne_zero
  have hxin : x ∈ (repCat features n).take 1024 :=
    mem_take_repCat hx hlen hlen2 (by norm_num)
  exact ne_of_gt (sumSq_pos_of_mem hxin hxne)

/-- Witness for `expand_features_unit_norm` on the feature list `[1]`. -/
theorem expand_features_unit_norm_witness :
    ∃ v, expand_features [(1:ℝ)] 1024 = some v ∧ v.length = 1024 ∧ sumSq v = 1 :=
  expand_features_unit_norm [1] 1 (List.mem_singleton.mpr rfl) one_ne_zero
    (by decide)

/-- C6 counterexample — on the non-empty all-zero feature list `[0]` the
expansion has magnitude 0, the normalization branch is skipped, and the
resulting 1024-vector has L2 norm 0, not 1. -/
theorem expand_features_zero_features :
    ∃ v, expand_features [(0:ℝ)] 1024 = some v ∧ v.length = 1024
      ∧ sumSq v = 0 ∧ sumSq v ≠ 1 := by
  have hne : ([(0:ℝ)] : List ℝ) ≠ [] := by simp
  obtain ⟨n, hlen2, heq⟩ := expand_features_run [(0:ℝ)] 1024 hne
  have hall : ∀ y ∈ (repCat [(0:ℝ)] n).take 1024, y = 0 := by
    intro y hy
    have hmem := mem_repCat (List.take_subset _ _ hy)
    simpa using hmem
  have hzero : sumSq ((repCat [(0:ℝ)] n).take 1024) = 0 := sumSq_zero_of_forall hall
  have hns : normalizeStep 1024 (repCat [(0:ℝ)] n) = (repCat [(0:ℝ)] n).take 1024 :=
    normalizeStep_of_zero hzero
  refine ⟨normalizeStep 1024 (repCat [(0:ℝ)] n), heq, length_normalizeStep hlen2, ?_, ?_⟩
  · rw [hns]
    exact hzero
  · rw [hns, hzero]
    norm_num

/-- C10 (confirmed) — the feature-expansion function terminates (returns a
value) for every non-empty feature list, and for the empty feature list its
tiling loop never increases the accumulator, so the loop guard holds after
every number of iterations: the function diverges, which is why the
non-emptiness precondition is necessary. -/
theorem expand_features_termination :
    (∀ (features : List ℝ) (target : ℕ), features ≠ [] →
        ∃ v, expand_features features target = some v)
    ∧ (∀ target : ℕ, 0 < target → expand_features ([] : List ℝ) target = none)
    ∧ (∀ target fuel : ℕ, 0 < target →
        tileWhile ([] : List ℝ) target fuel [] = none) := by
  have h3 : ∀ target fuel : ℕ, 0 < target →
      tileWhile ([] : List ℝ) target fuel [] = none := by
    intro target fuel h
    exact tileWhile_nil_none target fuel [] (by simpa using h)
  refine ⟨?_, ?_, h3⟩
  · intro features target hne
    obtain ⟨n, _, heq⟩ := expand_features_run features target hne
    exact ⟨_, heq⟩
  · intro target h
    simp only [expand_features, h3 target (target + 1) h, Option.map_none']

/-- Witness for `expand_features_termination` at small concrete inputs. -/
theorem expand_features_termination_witness :
    (∃ v, expand_features [(1:ℝ)] 8 = some v)
    ∧ expand_features ([] : List ℝ) 8 = none
    ∧ tileWhile ([] : List ℝ) 8 5 [] = none :=
  ⟨expand_features_termination.1 [1] 8 (by simp),
   expand_features_termination.2.1 8 (by decide),
   expand_features_termination.2.2 8 5 (by decide)⟩

/-! ## Lemmas about Claude feature parsing -/

theorem splitChar_ne_nil (sep : Char) (cs : List Char) : splitChar sep cs ≠ [] := by
  induction cs with
  | nil => simp [splitChar]
  | cons c rest ih =>
    simp only [splitChar]
    by_cases hc : c = sep
    · simp [hc]
    · rw [if_neg hc]
      cases hr : splitChar sep rest with
      | nil => simp
      | cons chunk more => simp

theorem parseAll_length :
    ∀ (ts : List String) (fs : List ℚ), parseAll ts = some fs →
      fs.length = ts.length := by
  intro ts
  induction ts with
  | nil =>
    intro fs h
    simp only [parseAll, Option.some.injEq] at h
    simp [← h]
  | cons t ts ih =>
    intro fs h
    simp only [parseAll] at h
    cases hf : parseFloat t with
    | none =>
      rw [hf] at h
      simp at h
    | some q =>
      rw [hf] at h
      cases ha : parseAll ts with
      | none =>
        rw [ha] at h
        simp at h
      | some qs =>
        rw [ha] at h
        simp only [Option.some.injEq] at h
        rw [← h]
        simp [ih qs ha]

theorem parseAll_none_of_mem :
    ∀ (ts : List String) (t : String), t ∈ ts → parseFloat t = none →
      parseAll ts = none := by
  intro ts
  induction ts with
  | nil =>
    intro t h
    simp at h
  | cons t0 ts ih =>
    intro t hmem hnone
    rcases List.mem_cons.mp hmem with rfl | htail
    · simp [parseAll, hnone]
    · simp only [parseAll]
      rw [ih t htail hnone]
      cases parseFloat t0 <;> simp

theorem claudeParse_some_ne_nil {s : String} {fs : List ℚ}
    (h : claudeParseFeatures s = some fs) : fs ≠ [] := by
  have hlen := parseAll_length _ fs h
  intro hcon
  rw [hcon] at hlen
  simp only [List.length_nil] at hlen
  have hsplit : (pySplit (pyStrip s) ',').length = 0 := hlen.symm
  simp only [pySplit, List.length_map, List.length_eq_zero] at hsplit
  exact splitChar_ne_nil ',' (pyStrip s).data hsplit

/-- A successful parse, of however many features, is expanded to the fixed
Claude dimension. -/
theorem claudeEmbedPost_expands {s : String} {fs : List ℚ}
    (h : claudeParseFeatures s = some fs) :
    ∃ v, claudeEmbedPost s = some v ∧ v.length = claudeDimension := by
  have hne : fs ≠ [] := claudeParse_some_ne_nil h
  have hne2 : fs.map (fun (q : ℚ) => (q : ℝ)) ≠ [] := by
    intro hcon
    rw [List.map_eq_nil_iff] at hcon
    exact hne hcon
  obtain ⟨n, hlen, heq⟩ :=
    expand_features_run (fs.map (fun (q : ℚ) => (q : ℝ))) claudeDimension hne2
  refine ⟨_, ?_, length_normalizeStep hlen⟩
  simp only [claudeEmbedPost, h, heq]

/-- C7 (amended) — a model response containing a non-numeric token is a hard
error: the token fails float parsing, the whole parse fails, and embed
raises; but a response that parses to a number of features different from
the requested 10 is NOT rejected — the code performs no count check, and
any successfully parsed feature list, of whatever length, is silently
expanded to the fixed dimension 1024. -/
theorem claude_parse_policy :
    (∀ s : String, claudeParseFeatures s = none → claudeEmbedPost s = none)
    ∧ (∀ (s t : String), t ∈ pySplit (pyStrip s) ',' → parseFloat t = none →
        claudeParseFeatures s = none)
    ∧ (∀ (s : String) (fs : List ℚ), claudeParseFeatures s = some fs →
        ∃ v, claudeEmbedPost s = some v ∧ v.length = claudeDimension) := by
  refine ⟨?_, ?_, ?_⟩
  · intro s h
    simp [claudeEmbedPost, h]
  · intro s t hmem hnone
    simp only [claudeParseFeatures]
    exact parseAll_none_of_mem _ t hmem hnone
  · intro s fs h
    exact claudeEmbedPost_expands h

/-- Witness for `claude_parse_policy` at concrete model responses. -/
theorem claude_parse_policy_witness :
    claudeEmbedPost "abc" = none
    ∧ claudeParseFeatures "1,x" = none
    ∧ ∃ v, claudeEmbedPost "0.5" = some v ∧ v.length = claudeDimension :=
  ⟨claude_parse_policy.1 "abc" (by decide),
   claude_parse_policy.2.1 "1,x" "x" (by decide) (by decide),
   claude_parse_policy.2.2 "0.5" [mkRat 5 10] (by decide)⟩

/-- C7 counterexample — the response `"0.1,0.2"` parses to 2 features, not
the requested 10, yet embed succeeds and silently expands them into a valid
1024-dimensional embedding: a wrong count is not a hard error. -/
theorem claude_wrong_count_not_error :
    ∃ fs, claudeParseFeatures "0.1,0.2" = some fs ∧ fs.length = 2
      ∧ ¬ fs.length = 10
      ∧ ∃ v, claudeEmbedPost "0.1,0.2" = some v ∧ v.length = 1024 := by
  refine ⟨[mkRat 1 10, mkRat 2 10], by decide, by decide, by decide, ?_⟩
  have h : claudeParseFeatures "0.1,0.2" = some [mkRat 1 10, mkRat 2 10] := by decide
  exact claudeEmbedPost_expands h

/-- C8 (confirmed) — the factory is insensitive to case and surrounding
whitespace of `provider_type`; each cloud variant selected without its
required API key (missing or empty, per Python truthiness) fails with a
configuration error naming the missing credential; the ollama variant with
no host gets the default host and model substituted instead of an error;
and every unknown provider type fails with an error listing the valid set. -/
theorem provider_factory_validation :
    (∀ (s1 s2 : String) (k h m : Option String),
        pyStrip (pyLower s1) = pyStrip (pyLower s2) →
        create_provider s1 k h m = create_provider s2 k h m)
    ∧ (∀ (k h m : Option String), (k = none ∨ k = some "") →
        create_provider "claude" k h m =
          .error ("API key is required for Claude provider. " ++
            "Set ANTHROPIC_API_KEY in environment or .env file."))
    ∧ (∀ (k h m : Option String), (k = none ∨ k = some "") →
        create_provider "openai" k h m =
          .error ("API key is required for OpenAI provider. " ++
            "Set OPENAI_API_KEY in environment or .env file."))
    ∧ (∀ k : Option String, create_provider "ollama" k none none =
        .ok (.ollama "http://localhost:11434" "nomic-embed-text"))
    ∧ (∀ (s : String) (k h m : Option String),
        pyStrip (pyLower s) ∉ (["claude", "openai", "ollama", "local"] : List String) →
        ∃ msg, create_provider s k h m = .error msg ∧
          msg = "Unknown embedding provider: " ++ pyStrip (pyLower s) ++
            ". Valid options: claude, openai, ollama, local") := by
  refine ⟨?_, ?_, ?_, ?_, ?_⟩
  · intro s1 s2 k h m hv
    simp only [create_provider, hv]
  · intro k h m hk
    rcases hk with rfl | rfl <;> rfl
  · intro k h m hk
    rcases hk with rfl | rfl <;> rfl
  · intro k
    cases k with
    | none => rfl
    | some kv => rfl
  · intro s k h m hns
    have h1 : pyStrip (pyLower s) ≠ "claude" := by
      intro hc
      rw [hc] at hns
      exact hns (by decide)
    have h2 : pyStrip (pyLower s) ≠ "openai" := by
      intro hc
      rw [hc] at hns
      exact hns (by decide)
    have h3 : pyStrip (pyLower s) ≠ "ollama" := by
      intro hc
      rw [hc] at hns
      exact hns (by decide)
    have h4 : pyStrip (pyLower s) ≠ "local" := by
      intro hc
      rw [hc] at hns
      exact hns (by decide)
    refine ⟨_, ?_, rfl⟩
    simp only [create_provider, if_neg h1, if_neg h2, if_neg h3, if_neg h4]

/-- Witness for `provider_factory_validation` at concrete configurations. -/
theorem provider_factory_validation_witness :
    create_provider " CLAUDE " (some "k1") none none =
      create_provider "claude" (some "k1") none none
    ∧ create_provider "claude" none none none =
        .error ("API key is required for Claude provider. " ++
          "Set ANTHROPIC_API_KEY in environment or .env file.")
    ∧ create_provider "openai" (some "") none none =
        .error ("API key is required for OpenAI provider. " ++
          "Set OPENAI_API_KEY in environment or .env file.")
    ∧ create_provider "ollama" none none none =
        .ok (.ollama "http://localhost:11434" "nomic-embed-text")
    ∧ ∃ msg, create_provider "weaviate" none none none = .error msg ∧
        msg = "Unknown embedding provider: " ++ pyStrip (pyLower "weaviate") ++
          ". Valid options: claude, openai, ollama, local" :=
  ⟨provider_factory_validation.1 " CLAUDE " "claude" (some "k1") none none (by decide),
   provider_factory_validation.2.1 none none none (Or.inl rfl),
   provider_factory_validation.2.2.1 (some "") none none (Or.inr rfl),
   provider_factory_validation.2.2.2.1 none,
   provider_factory_validation.2.2.2.2 "weaviate" none none none (by decide)⟩

/-- C9 counterexample — with the dimension still unset, a failed dimension
probe makes `get_embedding_dimension` fix the dimension to the hardcoded
default 768 — a value coming from neither configuration nor any successful
embedding call — and a later successful embedding of length 3 does not
change the frozen value, refuting the claim that dimension is only ever
fixed by configuration or a successful call. -/
theorem ollama_default_dimension_probe_failure :
    ollamaGetDimension (.error "connection refused") none = (768, some 768)
    ∧ ollamaEmbedStep (.ok [1, 2, 3]) (some 768) = (.ok [1, 2, 3], some 768)
    ∧ (3:ℕ) ≠ 768 :=
  ⟨rfl, rfl, by decide⟩

/-- C9 (amended) — the ollama provider's dimension is frozen once set, and
it is established either lazily from the first successful embedding call
(memoized length) or — when the lazy probe inside
`get_embedding_dimension` fails — from the hardcoded default 768; an embed
never changes an already-set dimension. -/
theorem ollama_dimension_policy :
    (∀ (probe : Except String (List ℚ)) (d : ℕ),
        ollamaGetDimension probe (some d) = (d, some d))
    ∧ (∀ emb : List ℚ, emb ≠ [] →
        ollamaEmbedStep (.ok emb) none = (.ok emb, some emb.length))
    ∧ (∀ e : String, ollamaGetDimension (.error e) none = (768, some 768))
    ∧ (∀ (api : Except String (List ℚ)) (d : ℕ),
        (ollamaEmbedStep api (some d)).2 = some d) := by
  refine ⟨fun probe d => rfl, ?_, fun e => rfl, ?_⟩
  · intro emb hne
    simp [ollamaEmbedStep, hne]
  · intro api d
    cases api with
    | error e => rfl
    | ok emb =>
      simp only [ollamaEmbedStep]
      split_ifs <;> rfl

/-- Witness for `ollama_dimension_policy` at concrete states. -/
theorem ollama_dimension_policy_witness :
    ollamaGetDimension (.ok [1]) (some 42) = (42, some 42)
    ∧ ollamaEmbedStep (.ok [1, 2]) none = (.ok [1, 2], some 2)
    ∧ ollamaGetDimension (.error "down") none = (768, some 768)
    ∧ (ollamaEmbedStep (.ok [9]) (some 5)).2 = some 5 :=
  ⟨ollama_dimension_policy.1 (.ok [1]) 42,
   by
     have h := ollama_dimension_policy.2.1 [1, 2] (by decide)
     simpa using h,
   ollama_dimension_policy.2.2.1 "down",
   ollama_dimension_policy.2.2.2 (.ok [9]) 5⟩

end RagSvc
